import Mathlib

/-!
Shallow embedding of the trace-keyed log aggregation pipeline of
`prr-playground`: the fluent-bit Lua filter `combine_logs` (the buffering,
merging, completion-detecting fold step), together with the eviction
sweeper behaviour that the repository configures outside the Lua script.

Lua records are tables from field names to scalar values; a missing field
is `nil`. We model a scalar as `LuaVal`, a record as an association list
of field name and value (a `none` lookup is a `nil` field), and the shared
`buffer` table as an association list from trace-id value to group state.
-/

namespace Agg

/-- A Lua scalar value as it appears in a parsed log record: a string, an
integer, or a boolean. -/
inductive LuaVal where
  | str (s : String)
  | num (n : Int)
  | boolean (b : Bool)
deriving DecidableEq, Repr

/-- A log record: an association list from field name to scalar value.
A field absent from the list is a Lua `nil` field. -/
abbrev Record := List (String × LuaVal)

/-- Field lookup, `record["name"]` in the Lua source: first binding wins,
`none` when the field is absent. -/
def Record.get (r : Record) (name : String) : Option LuaVal :=
  match r with
  | [] => none
  | (n, v) :: rest => if n = name then some v else Record.get rest name

/-- The buffered aggregation state for one trace id, as built at
logger.go lines 33 to 40: the trace id, the ordered buffered messages, and
the four auxiliary fields the script tracks. -/
structure Group where
  traceId : LuaVal
  messages : List String
  method : Option LuaVal
  path : Option LuaVal
  status : Option LuaVal
  latencyMs : Option LuaVal
deriving DecidableEq, Repr

/-- The shared `buffer` table: an association list from trace-id value to
group state. -/
abbrev Buffer := List (LuaVal × Group)

/-- `buffer[traceId]` lookup. -/
def Buffer.find (b : Buffer) (k : LuaVal) : Option Group :=
  match b with
  | [] => none
  | (k0, g) :: rest => if k0 = k then some g else Buffer.find rest k

/-- `buffer[traceId] = g`: replace the binding in place when the key is
present, append it otherwise. -/
def Buffer.set (b : Buffer) (k : LuaVal) (g : Group) : Buffer :=
  match b with
  | [] => [(k, g)]
  | (k0, g0) :: rest =>
    if k0 = k then (k0, g) :: rest else (k0, g0) :: Buffer.set rest k g

/-- `buffer[traceId] = nil`: drop every binding for the key. -/
def Buffer.erase (b : Buffer) (k : LuaVal) : Buffer :=
  match b with
  | [] => []
  | (k0, g0) :: rest =>
    if k0 = k then Buffer.erase rest k else (k0, g0) :: Buffer.erase rest k

/-- The Lua coercion `record["message"] or ""` feeding `string.find` and
`table.insert`: `nil` and `false` become the empty string, a number is
read the way Lua would print it. (On a boolean `true` message Lua
`string.find` raises; no record in this development carries one, and we
keep the function total by reading it as the empty string.) -/
def luaMessage : Option LuaVal → String
  | none => ""
  | some (LuaVal.boolean false) => ""
  | some (LuaVal.boolean true) => ""
  | some (LuaVal.str s) => s
  | some (LuaVal.num n) => toString n

/-- Whether a list of characters starts with the given pattern. -/
def startsWith : List Char → List Char → Bool
  | _, [] => true
  | [], _ :: _ => false
  | a :: as, b :: bs => a = b && startsWith as bs

/-- Whether the pattern occurs contiguously anywhere in the haystack:
`string.find(hay, pat) ~= nil` for a pattern without magic characters. -/
def hasSubList (pat : List Char) : List Char → Bool
  | [] => startsWith [] pat
  | c :: rest => startsWith (c :: rest) pat || hasSubList pat rest

/-- Completion detection, logger.go line 29:
`string.find(message, "request completed") ~= nil`. -/
def is_terminal (m : String) : Bool :=
  hasSubList "request completed".data m.data

/-- `table.concat(messages, sep)`. -/
def tableConcat (sep : String) : List String → String
  | [] => ""
  | [m] => m
  | m :: rest => m ++ sep ++ tableConcat sep rest

/-- The latest-wins update of logger.go lines 47 to 58:
`if record[f] then buffer[tid][f] = record[f] end`. A `nil` or `false`
incoming value (Lua falsy) leaves the stored value alone. -/
def luaUpdate (old incoming : Option LuaVal) : Option LuaVal :=
  match incoming with
  | none => old
  | some (LuaVal.boolean false) => old
  | some v => some v

/-- One `(name, value)` binding when the value is non-nil, nothing
otherwise: a Lua table constructor field with a possibly-nil value. -/
def optField (name : String) (v : Option LuaVal) : Record :=
  match v with
  | none => []
  | some x => [(name, x)]

/-- The combined record built at flush, logger.go lines 62 to 69: the
trace id, the newline-joined messages, and whichever of the four tracked
auxiliary fields are non-nil. -/
def mkCombined (g : Group) : Record :=
  ("traceId", g.traceId) ::
  ("message", LuaVal.str (tableConcat "\n" g.messages)) ::
  (optField "method" g.method ++ optField "path" g.path ++
   optField "status" g.status ++ optField "latencyMs" g.latencyMs)

/-- The triple a fluent-bit Lua filter returns: the action code (`1` emit
the record, `-1` suppress it), the timestamp, and the record. -/
structure StepReturn where
  code : Int
  ts : Int
  out : Record
deriving DecidableEq, Repr

/-- The keyed-record test of logger.go lines 22 to 26, as a predicate:
the record has a `traceId` field that is Lua-truthy (not `nil`, not
`false`) and is not the empty string. -/
def isKeyedRecord (r : Record) : Bool :=
  match Record.get r "traceId" with
  | none => false
  | some tid => !(tid = LuaVal.boolean false ∨ tid = LuaVal.str "")

/-- The group state after folding one keyed record, logger.go lines 32 to
58: initialize the buffer entry when absent (lines 32 to 41), append the
coerced message (line 44), then latest-wins update of the four tracked
auxiliary fields (lines 47 to 58). -/
def foldGroup (record : Record) (tid : LuaVal) (buffer : Buffer) : Group :=
  let g0 : Group :=
    match Buffer.find buffer tid with
    | some g => g
    | none =>
      { traceId := tid
        messages := []
        method := Record.get record "method"
        path := Record.get record "path"
        status := Record.get record "status"
        latencyMs := Record.get record "latencyMs" }
  let g1 := { g0 with
    messages := g0.messages ++ [luaMessage (Record.get record "message")] }
  { g1 with
    method := luaUpdate g1.method (Record.get record "method")
    path := luaUpdate g1.path (Record.get record "path")
    status := luaUpdate g1.status (Record.get record "status")
    latencyMs := luaUpdate g1.latencyMs (Record.get record "latencyMs") }

/-- The `combine_logs(tag, timestamp, record)` fold step of
logger.go lines 20 to 80, with the mutable `buffer` passed and returned
explicitly. Unkeyed records pass through unchanged; keyed records are
folded into the group for their trace id, which is flushed as a combined
record exactly when the incoming message contains the terminal marker. -/
def combine_logs (tag : String) (timestamp : Int) (record : Record)
    (buffer : Buffer) : StepReturn × Buffer :=
  match Record.get record "traceId" with
  | none => (⟨1, timestamp, record⟩, buffer)
  | some tid =>
    if tid = LuaVal.boolean false ∨ tid = LuaVal.str "" then
      (⟨1, timestamp, record⟩, buffer)
    else
      let g2 := foldGroup record tid buffer
      if is_terminal (luaMessage (Record.get record "message")) then
        (⟨1, timestamp, mkCombined g2⟩,
         Buffer.erase (Buffer.set buffer tid g2) tid)
      else
        (⟨-1, timestamp, record⟩, Buffer.set buffer tid g2)

/-- One call to the filter: its tag, timestamp and record. -/
abbrev Input := String × Int × Record

/-- Run `combine_logs` over a list of inputs from left to right, threading
the buffer and collecting every returned triple. -/
def processAll : List Input → Buffer → List StepReturn × Buffer
  | [], buffer => ([], buffer)
  | (tag, ts, r) :: rest, buffer =>
    let s := combine_logs tag ts r buffer
    let p := processAll rest s.2
    (s.1 :: p.1, p.2)

/-- Number of step returns that emit (action code 1) a record whose
`traceId` field is `k`. -/
def emitCountFor (k : LuaVal) (outs : List StepReturn) : Nat :=
  outs.countP fun s => decide (s.code = 1 ∧ Record.get s.out "traceId" = some k)

/-- Number of records in a list whose `traceId` field is `k`. -/
def recCountFor (k : LuaVal) (rs : List Record) : Nat :=
  rs.countP fun r => decide (Record.get r "traceId" = some k)

/-- Whether one fold step creates a fresh group for key `k`: the record is
keyed, its trace id is `k`, and no group for `k` exists yet. -/
def createsFor (k : LuaVal) (r : Record) (buffer : Buffer) : Bool :=
  match Record.get r "traceId" with
  | none => false
  | some tid =>
    decide (¬(tid = LuaVal.boolean false ∨ tid = LuaVal.str "") ∧
      tid = k ∧ Buffer.find buffer k = none)

/-- Number of groups created for key `k` while running the inputs. -/
def createdCount (k : LuaVal) : List Input → Buffer → Nat
  | [], _ => 0
  | (tag, ts, r) :: rest, buffer =>
    (if createsFor k r buffer then 1 else 0) +
      createdCount k rest (combine_logs tag ts r buffer).2

/-- `1` when a group for `k` is live in the buffer, else `0`. -/
def inBufFor (k : LuaVal) (b : Buffer) : Nat :=
  if Buffer.find b k = none then 0 else 1

/-- Well-formedness of the buffer: keys are distinct, and every entry
stores its own key as the group trace id. Holds for the empty buffer and
is preserved by every fold step. -/
def BufferWF (b : Buffer) : Prop :=
  (b.map Prod.fst).Nodup ∧ ∀ p ∈ b, p.2.traceId = p.1

/-- Modelled from the spec: the shutdown sweep of section 5 (treat
shutdown like global staleness) force-flushes every remaining Group,
emitting its combined record; the Lua source under src has no sweeper, the
repository configures this eviction behaviour outside it. -/
def finalSweep (b : Buffer) : List Record :=
  b.map fun p => mkCombined p.2

/-- The keyed-record classification in the words of spec section 4.2:
keyed iff the `traceId` field is present and non-empty after type coercion
to string, with absent, empty-string, or non-string values classified as
unkeyed. Stated for comparison with the classification the source code
performs. -/
def specIsKeyedRecord (r : Record) : Bool :=
  match Record.get r "traceId" with
  | some (LuaVal.str s) => decide (s ≠ "")
  | _ => false

/-- Modelled from the spec: the Group of section 3 additionally carries
`createdAt` and `lastUpdatedAt` timestamps for the Eviction Sweeper; the
Lua source under src keeps no timestamps, the repository configures the
sweeper outside it. -/
structure TimedGroup where
  group : Group
  createdAt : Int
  lastUpdatedAt : Int
deriving DecidableEq, Repr

/-- The Aggregation State Store as seen by the sweeper: an association
list from key to timed group. -/
abbrev Store := List (LuaVal × TimedGroup)

/-- Store lookup by key, first binding wins. -/
def Store.find (s : Store) (k : LuaVal) : Option TimedGroup :=
  match s with
  | [] => none
  | (k0, g) :: rest => if k0 = k then some g else Store.find rest k

/-- Modelled from the spec: the staleness pass of section 4.6 — for each
Group with `now - lastUpdatedAt > deadline`, remove it from the store and
force emission of whatever partial state accumulated. Returns the emitted
combined records and the surviving store. -/
def sweepStale (deadline now : Int) (store : Store) : List Record × Store :=
  ((store.filter fun p => decide (now - p.2.lastUpdatedAt > deadline)).map
      (fun p => mkCombined p.2.group),
   store.filter fun p => !decide (now - p.2.lastUpdatedAt > deadline))

/-- Remove the entry with the least `createdAt` from the store, returning
it with the remaining entries; `none` on an empty store. -/
def popOldest : Store → Option ((LuaVal × TimedGroup) × Store)
  | [] => none
  | e :: rest =>
    match popOldest rest with
    | none => some (e, [])
    | some (m, rest2) =>
      if e.2.createdAt ≤ m.2.createdAt then some (e, rest) else some (m, e :: rest2)

/-- Modelled from the spec: the capacity-eviction loop of section 4.6 —
while the store holds more than `maxSize` entries, evict the oldest entry
(by `createdAt`) first, until back under the limit. The fuel argument
bounds the iterations; `capacityEvict` supplies the store size, which
always suffices. Returns the evicted entries and the surviving store. -/
def capacityEvictFuel (maxSize : Nat) : Nat → Store → List (LuaVal × TimedGroup) × Store
  | 0, store => ([], store)
  | fuel + 1, store =>
    if store.length ≤ maxSize then ([], store)
    else
      match popOldest store with
      | none => ([], store)
      | some (m, rest) =>
        let p := capacityEvictFuel maxSize fuel rest
        (m :: p.1, p.2)

/-- Modelled from the spec: run the capacity-eviction loop to completion. -/
def capacityEvict (maxSize : Nat) (store : Store) : List (LuaVal × TimedGroup) × Store :=
  capacityEvictFuel maxSize store.length store

/-- A one-message group with no auxiliary fields, for concrete examples. -/
def exGroup (tid msg : String) : Group :=
  { traceId := LuaVal.str tid
    messages := [msg]
    method := none
    path := none
    status := none
    latencyMs := none }

/-- A timed store entry around `exGroup`, for concrete examples. -/
def exTimed (tid msg : String) (c u : Int) : TimedGroup :=
  { group := exGroup tid msg, createdAt := c, lastUpdatedAt := u }

/-! ## Buffer lemmas -/

theorem find_set_self (b : Buffer) (k : LuaVal) (g : Group) :
    Buffer.find (Buffer.set b k g) k = some g := by
  induction b with
  | nil => simp [Buffer.set, Buffer.find]
  | cons p rest ih =>
    obtain ⟨k0, g0⟩ := p
    by_cases h : k0 = k
    · simp [Buffer.set, Buffer.find, h]
    · simp [Buffer.set, Buffer.find, h, ih]

theorem find_set_ne (b : Buffer) (k k2 : LuaVal) (g : Group) (h : k ≠ k2) :
    Buffer.find (Buffer.set b k g) k2 = Buffer.find b k2 := by
  induction b with
  | nil => simp [Buffer.set, Buffer.find, h]
  | cons p rest ih =>
    obtain ⟨k0, g0⟩ := p
    by_cases h0 : k0 = k
    · subst h0; simp [Buffer.set, Buffer.find, h]
    · simp [Buffer.set, Buffer.find, h0, ih]

theorem find_erase_self (b : Buffer) (k : LuaVal) :
    Buffer.find (Buffer.erase b k) k = none := by
  induction b with
  | nil => simp [Buffer.erase, Buffer.find]
  | cons p rest ih =>
    obtain ⟨k0, g0⟩ := p
    by_cases h : k0 = k
    · simp [Buffer.erase, h, ih]
    · simp [Buffer.erase, Buffer.find, h, ih]

theorem find_erase_ne (b : Buffer) (k k2 : LuaVal) (h : k ≠ k2) :
    Buffer.find (Buffer.erase b k) k2 = Buffer.find b k2 := by
  induction b with
  | nil => simp [Buffer.erase]
  | cons p rest ih =>
    obtain ⟨k0, g0⟩ := p
    by_cases h0 : k0 = k
    · subst h0; simp [Buffer.erase, Buffer.find, h, ih, Ne.symm h]
    · simp [Buffer.erase, Buffer.find, h0, ih]

theorem find_mem {b : Buffer} {k : LuaVal} {g : Group}
    (h : Buffer.find b k = some g) : (k, g) ∈ b := by
  induction b with
  | nil => simp [Buffer.find] at h
  | cons p rest ih =>
    obtain ⟨k0, g0⟩ := p
    by_cases h0 : k0 = k
    · subst h0
      simp [Buffer.find] at h
      simp [h]
    · simp [Buffer.find, h0] at h
      exact List.mem_cons_of_mem _ (ih h)

/-! ## Step characterization lemmas -/

theorem combine_logs_no_trace (tag : String) (ts : Int) {r : Record}
    (buffer : Buffer) (h : Record.get r "traceId" = none) :
    combine_logs tag ts r buffer = (⟨1, ts, r⟩, buffer) := by
  simp only [combine_logs, h]

theorem combine_logs_falsy_trace (tag : String) (ts : Int) {r : Record}
    {tid : LuaVal} (buffer : Buffer) (h : Record.get r "traceId" = some tid)
    (h2 : tid = LuaVal.boolean false ∨ tid = LuaVal.str "") :
    combine_logs tag ts r buffer = (⟨1, ts, r⟩, buffer) := by
  simp only [combine_logs, h]
  rw [if_pos h2]

theorem combine_logs_hold (tag : String) (ts : Int) {r : Record}
    {tid : LuaVal} (buffer : Buffer) (h : Record.get r "traceId" = some tid)
    (h2 : ¬(tid = LuaVal.boolean false ∨ tid = LuaVal.str ""))
    (h3 : is_terminal (luaMessage (Record.get r "message")) = false) :
    combine_logs tag ts r buffer =
      (⟨-1, ts, r⟩, Buffer.set buffer tid (foldGroup r tid buffer)) := by
  simp only [combine_logs, h]
  rw [if_neg h2, if_neg (by simp [h3])]

theorem combine_logs_flush (tag : String) (ts : Int) {r : Record}
    {tid : LuaVal} (buffer : Buffer) (h : Record.get r "traceId" = some tid)
    (h2 : ¬(tid = LuaVal.boolean false ∨ tid = LuaVal.str ""))
    (h3 : is_terminal (luaMessage (Record.get r "message")) = true) :
    combine_logs tag ts r buffer =
      (⟨1, ts, mkCombined (foldGroup r tid buffer)⟩,
       Buffer.erase (Buffer.set buffer tid (foldGroup r tid buffer)) tid) := by
  simp only [combine_logs, h]
  rw [if_neg h2, if_pos h3]

theorem foldGroup_traceId {r : Record} {tid : LuaVal} {buffer : Buffer}
    (hwf : ∀ p ∈ buffer, p.2.traceId = p.1) :
    (foldGroup r tid buffer).traceId = tid := by
  unfold foldGroup
  cases hf : Buffer.find buffer tid with
  | none => simp
  | some g => simpa using hwf _ (find_mem hf)

theorem foldGroup_messages_fresh {r : Record} {tid : LuaVal} {buffer : Buffer}
    (hf : Buffer.find buffer tid = none) :
    (foldGroup r tid buffer).messages = [luaMessage (Record.get r "message")] := by
  simp [foldGroup, hf]

theorem foldGroup_messages_existing {r : Record} {tid : LuaVal}
    {buffer : Buffer} {g : Group} (hf : Buffer.find buffer tid = some g) :
    (foldGroup r tid buffer).messages
      = g.messages ++ [luaMessage (Record.get r "message")] := by
  simp [foldGroup, hf]

theorem get_mkCombined_traceId (g : Group) :
    Record.get (mkCombined g) "traceId" = some g.traceId := rfl

theorem get_mkCombined_message (g : Group) :
    Record.get (mkCombined g) "message"
      = some (LuaVal.str (tableConcat "\n" g.messages)) := rfl

theorem foldGroup_traceId_fresh {r : Record} {tid : LuaVal} {buffer : Buffer}
    (hf : Buffer.find buffer tid = none) :
    (foldGroup r tid buffer).traceId = tid := by
  simp [foldGroup, hf]

theorem get_mkCombined_other {g : Group} {name : String}
    (h1 : "traceId" ≠ name) (h2 : "message" ≠ name) (h3 : "method" ≠ name)
    (h4 : "path" ≠ name) (h5 : "status" ≠ name) (h6 : "latencyMs" ≠ name) :
    Record.get (mkCombined g) name = none := by
  obtain ⟨t, ms, mo, pa, st, la⟩ := g
  cases mo <;> cases pa <;> cases st <;> cases la <;>
    simp [mkCombined, optField, Record.get, h1, h2, h3, h4, h5, h6]

/-- A terminal record arriving for a key with no live group: the step
flushes immediately, emitting one combined record that carries the key and
exactly the incoming message, and leaves no group behind. -/
theorem flush_fresh (tag : String) (ts : Int) {r : Record} {k : LuaVal}
    (buffer : Buffer) {m : String}
    (hk : ¬(k = LuaVal.boolean false ∨ k = LuaVal.str ""))
    (ht : Record.get r "traceId" = some k)
    (hfresh : Buffer.find buffer k = none)
    (hm : luaMessage (Record.get r "message") = m)
    (hterm : is_terminal m = true) :
    (combine_logs tag ts r buffer).1.code = 1 ∧
    Record.get (combine_logs tag ts r buffer).1.out "traceId" = some k ∧
    Record.get (combine_logs tag ts r buffer).1.out "message"
      = some (LuaVal.str m) ∧
    Buffer.find (combine_logs tag ts r buffer).2 k = none := by
  rw [combine_logs_flush tag ts buffer ht hk (by rw [hm]; exact hterm)]
  refine ⟨rfl, ?_, ?_, find_erase_self _ _⟩
  · rw [get_mkCombined_traceId, foldGroup_traceId_fresh hfresh]
  · rw [get_mkCombined_message, foldGroup_messages_fresh hfresh, hm]
    rfl

/-! ## Claims about the fold step -/

/-- C6: a record whose `traceId` is missing or the empty string is emitted
unchanged, with the same timestamp, by the same processing pass, and the
buffer is untouched: no group is created or modified. -/
theorem c6_passthrough_unchanged (tag : String) (ts : Int) (r : Record)
    (buffer : Buffer)
    (h : Record.get r "traceId" = none ∨
         Record.get r "traceId" = some (LuaVal.str "")) :
    combine_logs tag ts r buffer = (⟨1, ts, r⟩, buffer) := by
  rcases h with h | h
  · exact combine_logs_no_trace tag ts buffer h
  · exact combine_logs_falsy_trace tag ts buffer h (Or.inr rfl)

theorem c6_witness :
    combine_logs "tail.0" 7 [("message", LuaVal.str "startup")] []
      = (⟨1, 7, [("message", LuaVal.str "startup")]⟩, []) :=
  c6_passthrough_unchanged "tail.0" 7 [("message", LuaVal.str "startup")] []
    (Or.inl (by decide))

/-- C3: a single record with a terminal message and a fresh key (no live
group) produces, synchronously in the same fold step, exactly one emitted
record (action code 1) carrying the key and only that record's message,
and leaves no group in the buffer. -/
theorem c3_immediate_completion (tag : String) (ts : Int) (r : Record)
    (buffer : Buffer) (k : LuaVal) (m : String)
    (hk : ¬(k = LuaVal.boolean false ∨ k = LuaVal.str ""))
    (ht : Record.get r "traceId" = some k)
    (hfresh : Buffer.find buffer k = none)
    (hm : luaMessage (Record.get r "message") = m)
    (hterm : is_terminal m = true) :
    (combine_logs tag ts r buffer).1.code = 1 ∧
    Record.get (combine_logs tag ts r buffer).1.out "traceId" = some k ∧
    Record.get (combine_logs tag ts r buffer).1.out "message"
      = some (LuaVal.str m) ∧
    Buffer.find (combine_logs tag ts r buffer).2 k = none :=
  flush_fresh tag ts buffer hk ht hfresh hm hterm

theorem c3_witness :
    (combine_logs "tail.0" 0
        [("traceId", LuaVal.str "xyz"),
         ("message", LuaVal.str "request completed")] []).1.code = 1 ∧
    Record.get (combine_logs "tail.0" 0
        [("traceId", LuaVal.str "xyz"),
         ("message", LuaVal.str "request completed")] []).1.out "traceId"
      = some (LuaVal.str "xyz") ∧
    Record.get (combine_logs "tail.0" 0
        [("traceId", LuaVal.str "xyz"),
         ("message", LuaVal.str "request completed")] []).1.out "message"
      = some (LuaVal.str "request completed") ∧
    Buffer.find (combine_logs "tail.0" 0
        [("traceId", LuaVal.str "xyz"),
         ("message", LuaVal.str "request completed")] []).2
        (LuaVal.str "xyz") = none :=
  c3_immediate_completion "tail.0" 0
    [("traceId", LuaVal.str "xyz"), ("message", LuaVal.str "request completed")]
    [] (LuaVal.str "xyz") "request completed"
    (by decide) (by decide) rfl rfl (by decide)

/-- C2: a key with no live group receiving three records with messages
`m1, m2, m3` in that arrival order, only the last one terminal, yields on
the third step an emitted combined record whose message is the
newline-joined concatenation of all three messages in arrival order. -/
theorem c2_message_order (tag1 tag2 tag3 : String) (ts1 ts2 ts3 : Int)
    (r1 r2 r3 : Record) (buffer : Buffer) (k : LuaVal) (m1 m2 m3 : String)
    (hk : ¬(k = LuaVal.boolean false ∨ k = LuaVal.str ""))
    (hfresh : Buffer.find buffer k = none)
    (ht1 : Record.get r1 "traceId" = some k)
    (hm1 : luaMessage (Record.get r1 "message") = m1)
    (ht2 : Record.get r2 "traceId" = some k)
    (hm2 : luaMessage (Record.get r2 "message") = m2)
    (ht3 : Record.get r3 "traceId" = some k)
    (hm3 : luaMessage (Record.get r3 "message") = m3)
    (hc1 : is_terminal m1 = false) (hc2 : is_terminal m2 = false)
    (hc3 : is_terminal m3 = true) :
    (combine_logs tag1 ts1 r1 buffer).1.code = -1 ∧
    (combine_logs tag2 ts2 r2 (combine_logs tag1 ts1 r1 buffer).2).1.code = -1 ∧
    (combine_logs tag3 ts3 r3
        (combine_logs tag2 ts2 r2 (combine_logs tag1 ts1 r1 buffer).2).2).1.code
      = 1 ∧
    Record.get (combine_logs tag3 ts3 r3
        (combine_logs tag2 ts2 r2 (combine_logs tag1 ts1 r1 buffer).2).2).1.out
        "message"
      = some (LuaVal.str (m1 ++ "\n" ++ m2 ++ "\n" ++ m3)) := by
  have e1 := combine_logs_hold tag1 ts1 buffer ht1 hk (by rw [hm1]; exact hc1)
  have hmsg1 : (foldGroup r1 k buffer).messages = [m1] := by
    rw [foldGroup_messages_fresh hfresh, hm1]
  have hf1 : Buffer.find (combine_logs tag1 ts1 r1 buffer).2 k
      = some (foldGroup r1 k buffer) := by
    rw [e1]; exact find_set_self _ _ _
  have e2 := combine_logs_hold tag2 ts2 (combine_logs tag1 ts1 r1 buffer).2
    ht2 hk (by rw [hm2]; exact hc2)
  have hmsg2 :
      (foldGroup r2 k (combine_logs tag1 ts1 r1 buffer).2).messages
        = [m1, m2] := by
    rw [foldGroup_messages_existing hf1, hmsg1, hm2]
    rfl
  have hf2 : Buffer.find
      (combine_logs tag2 ts2 r2 (combine_logs tag1 ts1 r1 buffer).2).2 k
      = some (foldGroup r2 k (combine_logs tag1 ts1 r1 buffer).2) := by
    rw [e2]; exact find_set_self _ _ _
  have e3 := combine_logs_flush tag3 ts3
    (combine_logs tag2 ts2 r2 (combine_logs tag1 ts1 r1 buffer).2).2
    ht3 hk (by rw [hm3]; exact hc3)
  have hmsg3 :
      (foldGroup r3 k
        (combine_logs tag2 ts2 r2 (combine_logs tag1 ts1 r1 buffer).2).2).messages
        = [m1, m2, m3] := by
    rw [foldGroup_messages_existing hf2, hmsg2, hm3]
    rfl
  refine ⟨by rw [e1], by rw [e2], by rw [e3], ?_⟩
  rw [e3]
  show Record.get (mkCombined _) "message" = _
  rw [get_mkCombined_message, hmsg3]
  simp [tableConcat, String.append_assoc]

theorem c2_witness :
    (combine_logs "t" 0 [("traceId", LuaVal.str "abc"),
        ("message", LuaVal.str "started")] []).1.code = -1 ∧
    (combine_logs "t" 1 [("traceId", LuaVal.str "abc"),
        ("message", LuaVal.str "handler finished")]
      (combine_logs "t" 0 [("traceId", LuaVal.str "abc"),
        ("message", LuaVal.str "started")] []).2).1.code = -1 ∧
    (combine_logs "t" 2 [("traceId", LuaVal.str "abc"),
        ("message", LuaVal.str "request completed")]
      (combine_logs "t" 1 [("traceId", LuaVal.str "abc"),
        ("message", LuaVal.str "handler finished")]
        (combine_logs "t" 0 [("traceId", LuaVal.str "abc"),
          ("message", LuaVal.str "started")] []).2).2).1.code = 1 ∧
    Record.get (combine_logs "t" 2 [("traceId", LuaVal.str "abc"),
        ("message", LuaVal.str "request completed")]
      (combine_logs "t" 1 [("traceId", LuaVal.str "abc"),
        ("message", LuaVal.str "handler finished")]
        (combine_logs "t" 0 [("traceId", LuaVal.str "abc"),
          ("message", LuaVal.str "started")] []).2).2).1.out "message"
      = some (LuaVal.str
          ("started" ++ "\n" ++ "handler finished" ++ "\n" ++ "request completed")) :=
  c2_message_order "t" "t" "t" 0 1 2
    [("traceId", LuaVal.str "abc"), ("message", LuaVal.str "started")]
    [("traceId", LuaVal.str "abc"), ("message", LuaVal.str "handler finished")]
    [("traceId", LuaVal.str "abc"), ("message", LuaVal.str "request completed")]
    [] (LuaVal.str "abc") "started" "handler finished" "request completed"
    (by decide) rfl rfl rfl rfl rfl rfl rfl
    (by decide) (by decide) (by decide)

/-- C9: one fold step only touches the buffer entry of the record's own
trace id: for any key other than the record's `traceId` value, the buffer
entry is unchanged whether the step holds, flushes, or passes through. -/
theorem c9_frame (tag : String) (ts : Int) (r : Record) (buffer : Buffer)
    (k2 : LuaVal) (h : Record.get r "traceId" ≠ some k2) :
    Buffer.find (combine_logs tag ts r buffer).2 k2 = Buffer.find buffer k2 := by
  cases ht : Record.get r "traceId" with
  | none => rw [combine_logs_no_trace tag ts buffer ht]
  | some tid =>
    have hne : tid ≠ k2 := fun he => h (he ▸ ht)
    by_cases h2 : tid = LuaVal.boolean false ∨ tid = LuaVal.str ""
    · rw [combine_logs_falsy_trace tag ts buffer ht h2]
    · cases h3 : is_terminal (luaMessage (Record.get r "message")) with
      | false =>
        rw [combine_logs_hold tag ts buffer ht h2 h3]
        exact find_set_ne _ _ _ _ hne
      | true =>
        rw [combine_logs_flush tag ts buffer ht h2 h3]
        rw [find_erase_ne _ _ _ hne, find_set_ne _ _ _ _ hne]

theorem c9_witness :
    Buffer.find (combine_logs "t" 0
        [("traceId", LuaVal.str "abc"), ("message", LuaVal.str "hello")]
        [(LuaVal.str "other",
          { traceId := LuaVal.str "other", messages := ["m"], method := none,
            path := none, status := none, latencyMs := none })]).2
        (LuaVal.str "other")
      = Buffer.find
        [(LuaVal.str "other",
          { traceId := LuaVal.str "other", messages := ["m"], method := none,
            path := none, status := none, latencyMs := none })]
        (LuaVal.str "other") :=
  c9_frame "t" 0
    [("traceId", LuaVal.str "abc"), ("message", LuaVal.str "hello")]
    [(LuaVal.str "other",
      { traceId := LuaVal.str "other", messages := ["m"], method := none,
        path := none, status := none, latencyMs := none })]
    (LuaVal.str "other") (by decide)

/-- C10: after a flush removed the group for a key, a retransmitted
terminal record for the same key starts a fresh one-record group that is
itself immediately flushed as a new single-message combined record — it is
neither dropped nor merged into the earlier emission. -/
theorem c10_reflush_after_removal (tag1 tag2 : String) (ts1 ts2 : Int)
    (r1 r2 : Record) (buffer : Buffer) (k : LuaVal) (m2 : String)
    (hk : ¬(k = LuaVal.boolean false ∨ k = LuaVal.str ""))
    (ht1 : Record.get r1 "traceId" = some k)
    (hterm1 : is_terminal (luaMessage (Record.get r1 "message")) = true)
    (ht2 : Record.get r2 "traceId" = some k)
    (hm2 : luaMessage (Record.get r2 "message") = m2)
    (hterm2 : is_terminal m2 = true) :
    Buffer.find (combine_logs tag1 ts1 r1 buffer).2 k = none ∧
    (combine_logs tag2 ts2 r2 (combine_logs tag1 ts1 r1 buffer).2).1.code = 1 ∧
    Record.get (combine_logs tag2 ts2 r2
        (combine_logs tag1 ts1 r1 buffer).2).1.out "message"
      = some (LuaVal.str m2) ∧
    Buffer.find (combine_logs tag2 ts2 r2
        (combine_logs tag1 ts1 r1 buffer).2).2 k = none := by
  have hremoved : Buffer.find (combine_logs tag1 ts1 r1 buffer).2 k = none := by
    rw [combine_logs_flush tag1 ts1 buffer ht1 hk hterm1]
    exact find_erase_self _ _
  obtain ⟨hcode, _, hmsg, hgone⟩ :=
    flush_fresh tag2 ts2 (combine_logs tag1 ts1 r1 buffer).2 hk ht2 hremoved
      hm2 hterm2
  exact ⟨hremoved, hcode, hmsg, hgone⟩

theorem c10_witness :
    Buffer.find (combine_logs "t" 0
        [("traceId", LuaVal.str "abc"),
         ("message", LuaVal.str "request completed")] []).2
        (LuaVal.str "abc") = none ∧
    (combine_logs "t" 1
        [("traceId", LuaVal.str "abc"),
         ("message", LuaVal.str "request completed again")]
        (combine_logs "t" 0
          [("traceId", LuaVal.str "abc"),
           ("message", LuaVal.str "request completed")] []).2).1.code = 1 ∧
    Record.get (combine_logs "t" 1
        [("traceId", LuaVal.str "abc"),
         ("message", LuaVal.str "request completed again")]
        (combine_logs "t" 0
          [("traceId", LuaVal.str "abc"),
           ("message", LuaVal.str "request completed")] []).2).1.out "message"
      = some (LuaVal.str "request completed again") ∧
    Buffer.find (combine_logs "t" 1
        [("traceId", LuaVal.str "abc"),
         ("message", LuaVal.str "request completed again")]
        (combine_logs "t" 0
          [("traceId", LuaVal.str "abc"),
           ("message", LuaVal.str "request completed")] []).2).2
        (LuaVal.str "abc") = none :=
  c10_reflush_after_removal "t" "t" 0 1
    [("traceId", LuaVal.str "abc"), ("message", LuaVal.str "request completed")]
    [("traceId", LuaVal.str "abc"),
     ("message", LuaVal.str "request completed again")]
    [] (LuaVal.str "abc") "request completed again"
    (by decide) rfl (by decide) rfl rfl (by decide)

/-- C7 counterexample: a record with a numeric `traceId` is unkeyed in the
words of the spec (non-string values classify as unkeyed), yet the fold
step buffers it as a keyed record — a group for the numeric key is
created, instead of the record passing through. -/
theorem c7_counterexample :
    specIsKeyedRecord
        [("traceId", LuaVal.num 123), ("message", LuaVal.str "hi")] = false ∧
    (combine_logs "tail.0" 0
        [("traceId", LuaVal.num 123), ("message", LuaVal.str "hi")] []).1.code
      = -1 ∧
    Buffer.find (combine_logs "tail.0" 0
        [("traceId", LuaVal.num 123), ("message", LuaVal.str "hi")] []).2
        (LuaVal.num 123) ≠ none := by
  refine ⟨by decide, by decide, by decide⟩

/-- C7 amended: a record is keyed iff its `traceId` field is present,
Lua-truthy (not nil and not `false`), and not equal to the empty string —
no coercion to string happens, so numeric `traceId` values are keyed. The
classification is total, and it alone drives the step: unkeyed records
pass through unchanged with the buffer untouched; keyed records are folded
into the group of their trace id, held on a non-terminal message and
flushed on a terminal one. -/
theorem c7_keyed_classification_amended (tag : String) (ts : Int)
    (r : Record) (buffer : Buffer) :
    (isKeyedRecord r = false →
      combine_logs tag ts r buffer = (⟨1, ts, r⟩, buffer)) ∧
    (∀ tid, Record.get r "traceId" = some tid → isKeyedRecord r = true →
      (is_terminal (luaMessage (Record.get r "message")) = false →
        Buffer.find (combine_logs tag ts r buffer).2 tid
          = some (foldGroup r tid buffer)) ∧
      (is_terminal (luaMessage (Record.get r "message")) = true →
        (combine_logs tag ts r buffer).1.out
          = mkCombined (foldGroup r tid buffer))) := by
  constructor
  · intro hfalse
    cases ht : Record.get r "traceId" with
    | none => exact combine_logs_no_trace tag ts buffer ht
    | some tid =>
      refine combine_logs_falsy_trace tag ts buffer ht ?_
      by_contra h2
      rw [isKeyedRecord, ht] at hfalse
      simp [h2] at hfalse
  · intro tid ht htrue
    have h2 : ¬(tid = LuaVal.boolean false ∨ tid = LuaVal.str "") := by
      rw [isKeyedRecord, ht] at htrue
      simpa using htrue
    constructor
    · intro h3
      rw [combine_logs_hold tag ts buffer ht h2 h3]
      exact find_set_self _ _ _
    · intro h3
      rw [combine_logs_flush tag ts buffer ht h2 h3]

theorem c7_witness :
    combine_logs "tail.0" 3 [("message", LuaVal.str "boot")] []
        = (⟨1, 3, [("message", LuaVal.str "boot")]⟩, []) ∧
    Buffer.find (combine_logs "tail.0" 4
        [("traceId", LuaVal.num 123), ("message", LuaVal.str "hi")] []).2
        (LuaVal.num 123)
      = some (foldGroup
          [("traceId", LuaVal.num 123), ("message", LuaVal.str "hi")]
          (LuaVal.num 123) []) :=
  ⟨(c7_keyed_classification_amended "tail.0" 3
      [("message", LuaVal.str "boot")] []).1 (by decide),
   (((c7_keyed_classification_amended "tail.0" 4
      [("traceId", LuaVal.num 123), ("message", LuaVal.str "hi")] []).2
      (LuaVal.num 123) (by decide) (by decide)).1 (by decide))⟩

/-- C8 counterexample: an auxiliary field outside the four hardcoded names
is present in the incoming record, yet absent from the emitted combined
record — the merge loop supports only `method`, `path`, `status` and
`latencyMs`, it does not apply a per-field strategy to new field names. -/
theorem c8_counterexample :
    Record.get
        [("traceId", LuaVal.str "t1"),
         ("message", LuaVal.str "request completed"),
         ("userId", LuaVal.str "u42")] "userId" = some (LuaVal.str "u42") ∧
    (combine_logs "tail.0" 0
        [("traceId", LuaVal.str "t1"),
         ("message", LuaVal.str "request completed"),
         ("userId", LuaVal.str "u42")] []).1.code = 1 ∧
    Record.get (combine_logs "tail.0" 0
        [("traceId", LuaVal.str "t1"),
         ("message", LuaVal.str "request completed"),
         ("userId", LuaVal.str "u42")] []).1.out "userId" = none := by
  refine ⟨by decide, by decide, by decide⟩

/-- C8 amended: the merge loop is hardcoded to the fixed schema — it
merges `message` by newline concatenation and `method`, `path`, `status`,
`latencyMs` by latest-wins; every other field name of an incoming keyed
record is dropped: the emitted combined record never contains it. -/
theorem c8_fixed_schema_amended (tag : String) (ts : Int) (r : Record)
    (buffer : Buffer) (tid : LuaVal) (name : String)
    (ht : Record.get r "traceId" = some tid)
    (hk : ¬(tid = LuaVal.boolean false ∨ tid = LuaVal.str ""))
    (hterm : is_terminal (luaMessage (Record.get r "message")) = true)
    (hname : name ∉
      (["traceId", "message", "method", "path", "status", "latencyMs"] :
        List String)) :
    Record.get (combine_logs tag ts r buffer).1.out name = none := by
  rw [combine_logs_flush tag ts buffer ht hk hterm]
  simp only [List.mem_cons, List.mem_singleton, not_or] at hname
  obtain ⟨n1, n2, n3, n4, n5, n6, -⟩ := hname
  exact get_mkCombined_other (Ne.symm n1) (Ne.symm n2) (Ne.symm n3)
    (Ne.symm n4) (Ne.symm n5) (Ne.symm n6)

theorem c8_witness :
    Record.get (combine_logs "tail.0" 0
        [("traceId", LuaVal.str "t1"),
         ("message", LuaVal.str "request completed"),
         ("userId", LuaVal.str "u42")] []).1.out "userId" = none :=
  c8_fixed_schema_amended "tail.0" 0
    [("traceId", LuaVal.str "t1"),
     ("message", LuaVal.str "request completed"),
     ("userId", LuaVal.str "u42")]
    [] (LuaVal.str "t1") "userId" rfl (by decide) (by decide) (by decide)

/-! ## Well-formedness of the buffer along a run -/

theorem set_mem {b : Buffer} {k : LuaVal} {g : Group} {p : LuaVal × Group}
    (h : p ∈ Buffer.set b k g) : p ∈ b ∨ p = (k, g) := by
  induction b with
  | nil => simpa [Buffer.set] using h
  | cons q rest ih =>
    obtain ⟨k0, g0⟩ := q
    by_cases h0 : k0 = k
    · subst h0
      simp only [Buffer.set, if_true, eq_self_iff_true, List.mem_cons] at h
      rcases h with h | h
      · exact Or.inr h
      · exact Or.inl (List.mem_cons_of_mem _ h)
    · simp only [Buffer.set, if_neg h0, List.mem_cons] at h
      rcases h with h | h
      · exact Or.inl (by simp [h])
      · rcases ih h with h | h
        · exact Or.inl (List.mem_cons_of_mem _ h)
        · exact Or.inr h

theorem mem_map_fst_set {b : Buffer} {k k2 : LuaVal} {g : Group}
    (h : k2 ∈ (Buffer.set b k g).map Prod.fst) :
    k2 ∈ b.map Prod.fst ∨ k2 = k := by
  obtain ⟨p, hp, he⟩ := List.mem_map.mp h
  rcases set_mem hp with h1 | h1
  · exact Or.inl (he ▸ List.mem_map_of_mem _ h1)
  · subst h1; exact Or.inr he.symm

theorem set_nodup {b : Buffer} (k : LuaVal) (g : Group)
    (h : (b.map Prod.fst).Nodup) :
    ((Buffer.set b k g).map Prod.fst).Nodup := by
  induction b with
  | nil => simp [Buffer.set]
  | cons q rest ih =>
    obtain ⟨k0, g0⟩ := q
    simp only [List.map_cons, List.nodup_cons] at h
    by_cases h0 : k0 = k
    · subst h0
      simpa [Buffer.set, List.nodup_cons] using h
    · simp only [Buffer.set, if_neg h0, List.map_cons, List.nodup_cons]
      refine ⟨fun hm => ?_, ih h.2⟩
      rcases mem_map_fst_set hm with hm | hm
      · exact h.1 hm
      · exact h0 hm

theorem erase_mem {b : Buffer} {k : LuaVal} {p : LuaVal × Group}
    (h : p ∈ Buffer.erase b k) : p ∈ b := by
  induction b with
  | nil => simp [Buffer.erase] at h
  | cons q rest ih =>
    obtain ⟨k0, g0⟩ := q
    by_cases h0 : k0 = k
    · simp only [Buffer.erase, if_pos h0] at h
      exact List.mem_cons_of_mem _ (ih h)
    · simp only [Buffer.erase, if_neg h0, List.mem_cons] at h
      rcases h with h | h
      · exact by simp [h]
      · exact List.mem_cons_of_mem _ (ih h)

theorem erase_nodup {b : Buffer} (k : LuaVal) (h : (b.map Prod.fst).Nodup) :
    ((Buffer.erase b k).map Prod.fst).Nodup := by
  induction b with
  | nil => simp [Buffer.erase]
  | cons q rest ih =>
    obtain ⟨k0, g0⟩ := q
    simp only [List.map_cons, List.nodup_cons] at h
    by_cases h0 : k0 = k
    · simp only [Buffer.erase, if_pos h0]
      exact ih h.2
    · simp only [Buffer.erase, if_neg h0, List.map_cons, List.nodup_cons]
      refine ⟨fun hm => ?_, ih h.2⟩
      obtain ⟨p, hp, he⟩ := List.mem_map.mp hm
      exact h.1 (he ▸ List.mem_map_of_mem _ (erase_mem hp))

theorem step_wf (tag : String) (ts : Int) (r : Record) {buffer : Buffer}
    (hwf : BufferWF buffer) :
    BufferWF (combine_logs tag ts r buffer).2 := by
  cases ht : Record.get r "traceId" with
  | none => rw [combine_logs_no_trace tag ts buffer ht]; exact hwf
  | some tid =>
    by_cases h2 : tid = LuaVal.boolean false ∨ tid = LuaVal.str ""
    · rw [combine_logs_falsy_trace tag ts buffer ht h2]; exact hwf
    · have hset : BufferWF (Buffer.set buffer tid (foldGroup r tid buffer)) := by
        refine ⟨set_nodup _ _ hwf.1, fun p hp => ?_⟩
        rcases set_mem hp with hp | hp
        · exact hwf.2 p hp
        · subst hp; exact foldGroup_traceId hwf.2
      cases h3 : is_terminal (luaMessage (Record.get r "message")) with
      | false => rw [combine_logs_hold tag ts buffer ht h2 h3]; exact hset
      | true =>
        rw [combine_logs_flush tag ts buffer ht h2 h3]
        exact ⟨erase_nodup _ hset.1, fun p hp => hset.2 p (erase_mem hp)⟩

theorem processAll_wf (inputs : List Input) :
    ∀ buffer : Buffer, BufferWF buffer → BufferWF (processAll inputs buffer).2 := by
  induction inputs with
  | nil => intro buffer hwf; simpa [processAll] using hwf
  | cons i rest ih =>
    intro buffer hwf
    obtain ⟨tag, ts, r⟩ := i
    simpa only [processAll] using ih _ (step_wf tag ts r hwf)

/-! ## Counting emissions against group creations -/

theorem step_balance (tag : String) (ts : Int) {r : Record} {buffer : Buffer}
    (k : LuaVal) (hk : ¬(k = LuaVal.boolean false ∨ k = LuaVal.str ""))
    (hwf : ∀ p ∈ buffer, p.2.traceId = p.1) :
    (if (combine_logs tag ts r buffer).1.code = 1 ∧
        Record.get (combine_logs tag ts r buffer).1.out "traceId" = some k
      then 1 else 0)
      + inBufFor k (combine_logs tag ts r buffer).2
    = (if createsFor k r buffer then 1 else 0) + inBufFor k buffer := by
  cases ht : Record.get r "traceId" with
  | none =>
    rw [combine_logs_no_trace tag ts buffer ht]
    simp [createsFor, ht]
  | some tid =>
    by_cases h2 : tid = LuaVal.boolean false ∨ tid = LuaVal.str ""
    · rw [combine_logs_falsy_trace tag ts buffer ht h2]
      have hne : tid ≠ k := by rintro rfl; exact hk h2
      simp [createsFor, ht, hne, h2]
    · cases h3 : is_terminal (luaMessage (Record.get r "message")) with
      | false =>
        rw [combine_logs_hold tag ts buffer ht h2 h3]
        by_cases htid : tid = k
        · subst htid
          cases hfind : Buffer.find buffer tid with
          | none =>
            simp [createsFor, ht, h2, hfind, inBufFor, find_set_self]
          | some g =>
            simp [createsFor, ht, h2, hfind, inBufFor, find_set_self]
        · simp [createsFor, ht, h2, htid, inBufFor, find_set_ne _ _ _ _ htid]
      | true =>
        rw [combine_logs_flush tag ts buffer ht h2 h3]
        have htrace : (foldGroup r tid buffer).traceId = tid :=
          foldGroup_traceId hwf
        by_cases htid : tid = k
        · subst htid
          cases hfind : Buffer.find buffer tid with
          | none =>
            simp [createsFor, ht, h2, hfind, inBufFor, find_erase_self,
              get_mkCombined_traceId, htrace]
          | some g =>
            simp [createsFor, ht, h2, hfind, inBufFor, find_erase_self,
              get_mkCombined_traceId, htrace]
        · have hne2 : Buffer.find
              (Buffer.erase (Buffer.set buffer tid (foldGroup r tid buffer)) tid) k
              = Buffer.find buffer k := by
            rw [find_erase_ne _ _ _ htid, find_set_ne _ _ _ _ htid]
          simp [createsFor, ht, h2, htid, inBufFor, hne2,
            get_mkCombined_traceId, htrace]

theorem run_balance (k : LuaVal)
    (hk : ¬(k = LuaVal.boolean false ∨ k = LuaVal.str ""))
    (inputs : List Input) :
    ∀ buffer : Buffer, BufferWF buffer →
      emitCountFor k (processAll inputs buffer).1
        + inBufFor k (processAll inputs buffer).2
      = createdCount k inputs buffer + inBufFor k buffer := by
  induction inputs with
  | nil => intro buffer hwf; simp [processAll, emitCountFor, createdCount]
  | cons i rest ih =>
    intro buffer hwf
    obtain ⟨tag, ts, r⟩ := i
    have hstep := @step_balance tag ts r buffer k hk hwf.2
    have hrest := ih (combine_logs tag ts r buffer).2 (step_wf tag ts r hwf)
    simp only [processAll, createdCount, emitCountFor, List.countP_cons,
      decide_eq_true_eq] at hstep hrest ⊢
    omega

theorem sweep_count_zero {b : Buffer} {k : LuaVal}
    (hids : ∀ p ∈ b, p.2.traceId = p.1) (hk : k ∉ b.map Prod.fst) :
    recCountFor k (finalSweep b) = 0 := by
  induction b with
  | nil => rfl
  | cons p rest ih =>
    simp only [List.map_cons, List.mem_cons, not_or] at hk
    have hid : p.2.traceId = p.1 := hids p (by simp)
    simp only [finalSweep, List.map_cons, recCountFor, List.countP_cons,
      decide_eq_true_eq, get_mkCombined_traceId, hid]
    have : ¬(some p.1 = some k) := by simpa [eq_comm] using hk.1
    rw [if_neg this, Nat.add_zero]
    exact ih (fun q hq => hids q (List.mem_cons_of_mem _ hq)) hk.2

theorem sweep_count {b : Buffer} (k : LuaVal) (hwf : BufferWF b) :
    recCountFor k (finalSweep b) = inBufFor k b := by
  induction b with
  | nil => rfl
  | cons p rest ih =>
    obtain ⟨k0, g0⟩ := p
    obtain ⟨hnd, hids⟩ := hwf
    simp only [List.map_cons, List.nodup_cons] at hnd
    have hid : g0.traceId = k0 := hids (k0, g0) (by simp)
    have hids2 : ∀ q ∈ rest, q.2.traceId = q.1 :=
      fun q hq => hids q (List.mem_cons_of_mem _ hq)
    simp only [finalSweep, List.map_cons, recCountFor, List.countP_cons,
      decide_eq_true_eq, get_mkCombined_traceId, hid]
    by_cases hpk : k0 = k
    · subst hpk
      have hz := sweep_count_zero hids2 hnd.1
      simp only [finalSweep, recCountFor] at hz
      rw [hz]
      simp [inBufFor, Buffer.find]
    · have hrest := ih ⟨hnd.2, hids2⟩
      simp only [finalSweep, recCountFor] at hrest
      rw [hrest]
      have : ¬(some k0 = some k) := by simpa using hpk
      rw [if_neg this, Nat.add_zero]
      simp [inBufFor, Buffer.find, hpk]

/-- C1: for any key and any finite input sequence run from an empty
buffer, the number of records emitted for that key — by completion-flush
during the run, plus the final forced sweep of every remaining group — is
exactly the number of groups ever created for the key: no group is emitted
twice and no group that received a record is dropped. -/
theorem c1_exactly_once_emission (k : LuaVal) (inputs : List Input)
    (hk : ¬(k = LuaVal.boolean false ∨ k = LuaVal.str "")) :
    emitCountFor k (processAll inputs []).1
      + recCountFor k (finalSweep (processAll inputs []).2)
      = createdCount k inputs [] := by
  have hwf0 : BufferWF ([] : Buffer) := ⟨List.nodup_nil, by simp⟩
  rw [sweep_count k (processAll_wf inputs [] hwf0)]
  have h := run_balance k hk inputs [] hwf0
  simpa [inBufFor, Buffer.find] using h

theorem c1_witness :
    emitCountFor (LuaVal.str "abc")
        (processAll
          [("t", 0, [("traceId", LuaVal.str "abc"),
                     ("message", LuaVal.str "handler finished")]),
           ("t", 1, [("traceId", LuaVal.str "abc"),
                     ("message", LuaVal.str "request completed")]),
           ("t", 2, [("traceId", LuaVal.str "abc"),
                     ("message", LuaVal.str "left incomplete")])] []).1
      + recCountFor (LuaVal.str "abc")
          (finalSweep (processAll
            [("t", 0, [("traceId", LuaVal.str "abc"),
                       ("message", LuaVal.str "handler finished")]),
             ("t", 1, [("traceId", LuaVal.str "abc"),
                       ("message", LuaVal.str "request completed")]),
             ("t", 2, [("traceId", LuaVal.str "abc"),
                       ("message", LuaVal.str "left incomplete")])] []).2)
      = createdCount (LuaVal.str "abc")
          [("t", 0, [("traceId", LuaVal.str "abc"),
                     ("message", LuaVal.str "handler finished")]),
           ("t", 1, [("traceId", LuaVal.str "abc"),
                     ("message", LuaVal.str "request completed")]),
           ("t", 2, [("traceId", LuaVal.str "abc"),
                     ("message", LuaVal.str "left incomplete")])] [] :=
  c1_exactly_once_emission (LuaVal.str "abc")
    [("t", 0, [("traceId", LuaVal.str "abc"),
               ("message", LuaVal.str "handler finished")]),
     ("t", 1, [("traceId", LuaVal.str "abc"),
               ("message", LuaVal.str "request completed")]),
     ("t", 2, [("traceId", LuaVal.str "abc"),
               ("message", LuaVal.str "left incomplete")])]
    (by decide)

/-! ## The eviction sweeper (modelled from the spec) -/

theorem store_find_mem {s : Store} {k : LuaVal} {g : TimedGroup}
    (h : Store.find s k = some g) : (k, g) ∈ s := by
  induction s with
  | nil => simp [Store.find] at h
  | cons p rest ih =>
    obtain ⟨k0, g0⟩ := p
    by_cases h0 : k0 = k
    · subst h0
      simp [Store.find] at h
      simp [h]
    · simp [Store.find, h0] at h
      exact List.mem_cons_of_mem _ (ih h)

theorem store_find_eq_none {s : Store} {k : LuaVal}
    (h : k ∉ s.map Prod.fst) : Store.find s k = none := by
  induction s with
  | nil => rfl
  | cons p rest ih =>
    obtain ⟨k0, g0⟩ := p
    simp only [List.map_cons, List.mem_cons, not_or] at h
    have hne : k0 ≠ k := fun he => h.1 he.symm
    simp only [Store.find, if_neg hne]
    exact ih h.2

theorem store_key_unique {s : Store} (hnd : (s.map Prod.fst).Nodup)
    {k : LuaVal} {g1 g2 : TimedGroup}
    (h1 : (k, g1) ∈ s) (h2 : (k, g2) ∈ s) : g1 = g2 := by
  induction s with
  | nil => simp at h1
  | cons p rest ih =>
    obtain ⟨k0, g0⟩ := p
    simp only [List.map_cons, List.nodup_cons] at hnd
    simp only [List.mem_cons] at h1 h2
    rcases h1 with h1 | h1 <;> rcases h2 with h2 | h2
    · injection h1 with hk1 hg1
      injection h2 with hk2 hg2
      rw [hg1, hg2]
    · exfalso
      injection h1 with hk1 hg1
      subst hk1
      exact hnd.1 (List.mem_map_of_mem Prod.fst h2)
    · exfalso
      injection h2 with hk2 hg2
      subst hk2
      exact hnd.1 (List.mem_map_of_mem Prod.fst h1)
    · exact ih hnd.2 h1 h2

/-- C4: a group with no activity for longer than the staleness deadline is
flushed by the sweeper pass even though no terminal record arrived — its
accumulated partial state is emitted as a combined record — and afterwards
the store no longer contains the key. -/
theorem c4_staleness_eviction (deadline now : Int) (store : Store)
    (k : LuaVal) (g : TimedGroup)
    (hnd : (store.map Prod.fst).Nodup)
    (hfind : Store.find store k = some g)
    (hstale : now - g.lastUpdatedAt > deadline) :
    mkCombined g.group ∈ (sweepStale deadline now store).1 ∧
    Store.find (sweepStale deadline now store).2 k = none := by
  have hmem : (k, g) ∈ store := store_find_mem hfind
  constructor
  · exact List.mem_map_of_mem _
      (List.mem_filter.mpr ⟨hmem, by simpa using hstale⟩)
  · apply store_find_eq_none
    intro hk
    obtain ⟨p, hp, he⟩ := List.mem_map.mp hk
    obtain ⟨k1, g1⟩ := p
    obtain ⟨hpin, hpred⟩ := List.mem_filter.mp hp
    simp only at he
    subst he
    have : g1 = g := store_key_unique hnd hpin hmem
    subst this
    simp [hstale] at hpred

theorem c4_witness :
    mkCombined (exGroup "xyz" "boot")
      ∈ (sweepStale 30 31 [(LuaVal.str "xyz", exTimed "xyz" "boot" 0 0)]).1 ∧
    Store.find
        (sweepStale 30 31 [(LuaVal.str "xyz", exTimed "xyz" "boot" 0 0)]).2
        (LuaVal.str "xyz") = none :=
  c4_staleness_eviction 30 31 [(LuaVal.str "xyz", exTimed "xyz" "boot" 0 0)]
    (LuaVal.str "xyz") (exTimed "xyz" "boot" 0 0)
    (by decide) (by decide) (by decide)

theorem popOldest_none {s : Store} (h : popOldest s = none) : s = [] := by
  cases s with
  | nil => rfl
  | cons e rest =>
    exfalso
    cases hp : popOldest rest with
    | none => simp [popOldest, hp] at h
    | some pr =>
      obtain ⟨m, rest2⟩ := pr
      by_cases hle : e.2.createdAt ≤ m.2.createdAt <;>
        simp [popOldest, hp, hle] at h

theorem popOldest_length :
    ∀ {s : Store} {m : LuaVal × TimedGroup} {rest : Store},
      popOldest s = some (m, rest) → rest.length + 1 = s.length := by
  intro s
  induction s with
  | nil => intro m rest h; simp [popOldest] at h
  | cons e tl ih =>
    intro m rest h
    cases hp : popOldest tl with
    | none =>
      simp only [popOldest, hp, Option.some.injEq, Prod.mk.injEq] at h
      obtain ⟨-, rfl⟩ := h
      obtain rfl : tl = [] := popOldest_none hp
      rfl
    | some pr =>
      obtain ⟨m2, rest2⟩ := pr
      simp only [popOldest, hp] at h
      by_cases hle : e.2.createdAt ≤ m2.2.createdAt
      · rw [if_pos hle] at h
        simp only [Option.some.injEq, Prod.mk.injEq] at h
        obtain ⟨-, rfl⟩ := h
        rfl
      · rw [if_neg hle] at h
        simp only [Option.some.injEq, Prod.mk.injEq] at h
        obtain ⟨-, rfl⟩ := h
        have := ih hp
        simp only [List.length_cons]
        omega

theorem popOldest_min :
    ∀ {s : Store} {m : LuaVal × TimedGroup} {rest : Store},
      popOldest s = some (m, rest) →
      ∀ x ∈ s, m.2.createdAt ≤ x.2.createdAt := by
  intro s
  induction s with
  | nil => intro m rest h; simp [popOldest] at h
  | cons e tl ih =>
    intro m rest h x hx
    cases hp : popOldest tl with
    | none =>
      simp only [popOldest, hp, Option.some.injEq, Prod.mk.injEq] at h
      obtain ⟨rfl, -⟩ := h
      obtain rfl : tl = [] := popOldest_none hp
      rcases List.mem_cons.mp hx with hx1 | hx1
      · rw [hx1]
      · simp at hx1
    | some pr =>
      obtain ⟨m2, rest2⟩ := pr
      simp only [popOldest, hp] at h
      by_cases hle : e.2.createdAt ≤ m2.2.createdAt
      · rw [if_pos hle] at h
        simp only [Option.some.injEq, Prod.mk.injEq] at h
        obtain ⟨rfl, -⟩ := h
        rcases List.mem_cons.mp hx with hx1 | hx1
        · rw [hx1]
        · exact le_trans hle (ih hp x hx1)
      · rw [if_neg hle] at h
        simp only [Option.some.injEq, Prod.mk.injEq] at h
        obtain ⟨rfl, -⟩ := h
        rcases List.mem_cons.mp hx with hx1 | hx1
        · rw [hx1]; omega
        · exact ih hp x hx1

theorem popOldest_rest_sub :
    ∀ {s : Store} {m : LuaVal × TimedGroup} {rest : Store},
      popOldest s = some (m, rest) → ∀ x ∈ rest, x ∈ s := by
  intro s
  induction s with
  | nil => intro m rest h; simp [popOldest] at h
  | cons e tl ih =>
    intro m rest h x hx
    cases hp : popOldest tl with
    | none =>
      simp only [popOldest, hp, Option.some.injEq, Prod.mk.injEq] at h
      obtain ⟨-, rfl⟩ := h
      simp at hx
    | some pr =>
      obtain ⟨m2, rest2⟩ := pr
      simp only [popOldest, hp] at h
      by_cases hle : e.2.createdAt ≤ m2.2.createdAt
      · rw [if_pos hle] at h
        simp only [Option.some.injEq, Prod.mk.injEq] at h
        obtain ⟨-, rfl⟩ := h
        exact List.mem_cons_of_mem _ hx
      · rw [if_neg hle] at h
        simp only [Option.some.injEq, Prod.mk.injEq] at h
        obtain ⟨-, rfl⟩ := h
        rcases List.mem_cons.mp hx with hx1 | hx1
        · rw [hx1]; exact List.mem_cons_self _ _
        · exact List.mem_cons_of_mem _ (ih hp x hx1)

theorem capacityEvictFuel_length (maxSize : Nat) :
    ∀ (fuel : Nat) (store : Store), store.length ≤ maxSize + fuel →
      ((capacityEvictFuel maxSize fuel store).2).length ≤ maxSize := by
  intro fuel
  induction fuel with
  | zero => intro store h; simpa [capacityEvictFuel] using h
  | succ n ih =>
    intro store h
    by_cases hle : store.length ≤ maxSize
    · simp [capacityEvictFuel, hle]
    · cases hp : popOldest store with
      | none =>
        rw [popOldest_none hp] at hle
        simp at hle
      | some pr =>
        obtain ⟨m, rest⟩ := pr
        simp only [capacityEvictFuel, if_neg hle, hp]
        apply ih rest
        have := popOldest_length hp
        omega

theorem capacityEvictFuel_final_sub (maxSize : Nat) :
    ∀ (fuel : Nat) (store : Store),
      ∀ q ∈ (capacityEvictFuel maxSize fuel store).2, q ∈ store := by
  intro fuel
  induction fuel with
  | zero => intro store q hq; simpa [capacityEvictFuel] using hq
  | succ n ih =>
    intro store q hq
    by_cases hle : store.length ≤ maxSize
    · simpa [capacityEvictFuel, hle] using hq
    · cases hp : popOldest store with
      | none => simpa [capacityEvictFuel, hle, hp] using hq
      | some pr =>
        obtain ⟨m, rest⟩ := pr
        simp only [capacityEvictFuel, if_neg hle, hp] at hq
        exact popOldest_rest_sub hp q (ih rest q hq)

theorem capacityEvictFuel_oldest_first (maxSize : Nat) :
    ∀ (fuel : Nat) (store : Store),
      ∀ e ∈ (capacityEvictFuel maxSize fuel store).1,
      ∀ q ∈ (capacityEvictFuel maxSize fuel store).2,
        e.2.createdAt ≤ q.2.createdAt := by
  intro fuel
  induction fuel with
  | zero => intro store e he; simp [capacityEvictFuel] at he
  | succ n ih =>
    intro store e he q hq
    by_cases hle : store.length ≤ maxSize
    · simp [capacityEvictFuel, hle] at he
    · cases hp : popOldest store with
      | none => simp [capacityEvictFuel, hle, hp] at he
      | some pr =>
        obtain ⟨m, rest⟩ := pr
        simp only [capacityEvictFuel, if_neg hle, hp, List.mem_cons] at he hq
        rcases he with he | he
        · subst he
          exact popOldest_min hp q
            (popOldest_rest_sub hp q (capacityEvictFuel_final_sub maxSize n rest q hq))
        · exact ih rest e he q hq

/-- C5: after the capacity-eviction pass runs, the store never holds more
than the configured maximum number of entries, and every evicted entry is
at least as old (by `createdAt`) as every surviving entry: eviction is
oldest-first. -/
theorem c5_capacity_bound (maxSize : Nat) (store : Store) :
    ((capacityEvict maxSize store).2).length ≤ maxSize ∧
    ∀ e ∈ (capacityEvict maxSize store).1,
    ∀ q ∈ (capacityEvict maxSize store).2,
      e.2.createdAt ≤ q.2.createdAt :=
  ⟨capacityEvictFuel_length maxSize store.length store (Nat.le_add_left _ _),
   capacityEvictFuel_oldest_first maxSize store.length store⟩

theorem c5_witness :
    ((capacityEvict 1
        [(LuaVal.str "a", exTimed "a" "m1" 0 2),
         (LuaVal.str "b", exTimed "b" "m2" 5 6)]).2).length ≤ 1 ∧
    (LuaVal.str "a", exTimed "a" "m1" 0 2).2.createdAt
      ≤ (LuaVal.str "b", exTimed "b" "m2" 5 6).2.createdAt :=
  ⟨(c5_capacity_bound 1
      [(LuaVal.str "a", exTimed "a" "m1" 0 2),
       (LuaVal.str "b", exTimed "b" "m2" 5 6)]).1,
   (c5_capacity_bound 1
      [(LuaVal.str "a", exTimed "a" "m1" 0 2),
       (LuaVal.str "b", exTimed "b" "m2" 5 6)]).2
     (LuaVal.str "a", exTimed "a" "m1" 0 2) (by decide)
     (LuaVal.str "b", exTimed "b" "m2" 5 6) (by decide)⟩

end Agg
